import Mathlib

/-!
# Verification of the `chicken` PEG matching engine

A shallow embedding of the combinator-based matching engine in
`peg/language.go`, together with theorems settling the behavioural claims
about its combinators (literal, regexp, concatenation, plus, star,
optional, alternate, discard) and the `Language` facade.

Modelling conventions:

* Go's `[]byte` buffers become `List Nat` (one `Nat` per byte).  Grammar
  literals are converted with `strBytes`, which maps each character to its
  code point — identical to Go's UTF-8 conversion on the ASCII inputs that
  occur in this development.
* A Go lexer has type `func(*Source, int) (*ParseTree, error, int)`; here a
  `Lexer` returns `Option ParseTree × Option Err × Nat` (a `nil` pointer or
  `nil` error becomes `none`).
* The `Source` type itself lives outside the translated file; its
  `ConsumeLiteral`/`Consume` operations are modelled from the spec
  (§4.1 Source Buffer).  The regexp engine is Go's standard library, so the
  regexp combinator is parametrised by an arbitrary anchored consume
  function.
* The `for` loops inside `NewPlusClosure` and `NewStarClosure` have no
  termination guarantee (this is precisely the hazard §9 of the spec flags),
  so they are embedded with an explicit fuel parameter: `repLoop` returns
  `none` exactly when the Go loop has not exited within `fuel` iterations.
  All other combinators are total and keep the direct (fuel-free) type.
-/

namespace Chicken

/-- Modelled from the spec (§4.1): the Source Buffer is an immutable,
randomly addressable view over the input bytes, materialised once.  The
construction from an `io.Reader` and its possible I/O failure are outside
the matching engine and not modelled. -/
structure Source where
  buf : List Nat
deriving Repr, DecidableEq

/-- Model of Go's `[]byte(s)` conversion, modelled as code points (agrees with UTF-8
on ASCII data, the only data exercised here). -/
def strBytes (s : String) : List Nat :=
  s.data.map Char.toNat

/-- Modelled from the spec (§4.1): `consumeLiteral(bytes, pos)` succeeds iff
the buffer's bytes starting at `pos` exactly equal `bytes`, returning the
matched slice, and mutates nothing. -/
def Source.consumeLiteral (s : Source) (v : List Nat) (pos : Nat) : Option (List Nat) :=
  if v.isPrefixOf (s.buf.drop pos) then some v else none

/-- The parse tree of `tree.go` (not under `src/`; its shape is fixed by the
uses in `language.go` and §3 of the spec): a type label, raw matched bytes
(`Data`, with Go's `nil` slice rendered `[]`) and an ordered child list.
Children are `Option ParseTree` because Go's `[]*ParseTree` may hold `nil`
entries (the repetition closures append the child lexer's tree pointer
without a `nil` check). -/
inductive ParseTree where
  | mk (type : String) (data : List Nat) (children : List (Option ParseTree))

def ParseTree.type : ParseTree → String
  | .mk t _ _ => t

def ParseTree.data : ParseTree → List Nat
  | .mk _ d _ => d

def ParseTree.children : ParseTree → List (Option ParseTree)
  | .mk _ _ cs => cs

/-- The `error` values built by `language.go` (via `errors.New(fmt.Sprintf ...)`);
the two constructors carry the same payload the formatted messages carry. -/
inductive Err where
  | expectedLiteral (valid : String) (near : List Nat)
  | expectedRegex (pattern : String) (near : List Nat)
deriving DecidableEq

/-- The result triple of a Go lexer `(*ParseTree, error, int)`. -/
abbrev LexResult := Option ParseTree × Option Err × Nat

/-- Translation of `Lexeme` from `language.go`: a name, dependency list (diagnostics only)
and the lexer function.  The `isResolved` flag and the `nil`-lexer reference
placeholders of `NewRuleLexer` belong to the graph-resolution pass, which no
claim touches, and are not modelled. -/
inductive Lexeme where
  | mk (name : String) (deps : List Lexeme) (lexer : Source → Nat → LexResult)

def Lexeme.name : Lexeme → String
  | .mk n _ _ => n

def Lexeme.deps : Lexeme → List Lexeme
  | .mk _ d _ => d

def Lexeme.lexer : Lexeme → Source → Nat → LexResult
  | .mk _ _ lx => lx

/-- The diagnostic neighbourhood `s.buf[pos:min(pos+10, len(s.buf))]` that
`NewLiteralLexer`/`NewRegexpLexer` embed in their error messages. -/
def neighborhood (s : Source) (pos : Nat) : List Nat :=
  (s.buf.drop pos).take 10

/-- Translation of `NewLiteralLexer` from `language.go`: succeeds iff the buffer bytes at
`pos` equal the literal; the leaf carries the literal bytes and the consumed
length is the match's length. -/
def NewLiteralLexer (typ valid : String) : Lexeme :=
  .mk typ [] fun s pos =>
    match s.consumeLiteral (strBytes valid) pos with
    | none => (none, some (.expectedLiteral valid (neighborhood s pos)), 0)
    | some mtch => (some (.mk typ (strBytes valid) []), none, mtch.length)

/-- Translation of `NewRegexpLexer` from `language.go`.  The Go regexp engine is the
standard library's; per the spec (§4.1) `s.Consume(valid, pos)` is an
anchored match at `pos` returning the matched slice or no match, so the
combinator is parametrised by that consume function. -/
def NewRegexpLexer (typ pattern : String)
    (consume : Source → Nat → Option (List Nat)) : Lexeme :=
  .mk typ [] fun s pos =>
    match consume s pos with
    | none => (none, some (.expectedRegex pattern (neighborhood s pos)), 0)
    | some mtch => (some (.mk typ mtch []), none, mtch.length)

/-- The `for _, dep := range deps` loop of `NewConcatLexer`: accumulated
non-`nil` child trees and the accumulated offset; a child error aborts with
`(nil, err, 0)`. -/
def concatRun (s : Source) (pos : Nat) :
    List Lexeme → Nat → List ParseTree → Option Err × List ParseTree × Nat
  | [], offset, children => (none, children, offset)
  | dep :: rest, offset, children =>
    match dep.lexer s (pos + offset) with
    | (_, some e, _) => (some e, [], 0)
    | (some tree, none, l) => concatRun s pos rest (offset + l) (children ++ [tree])
    | (none, none, l) => concatRun s pos rest (offset + l) children

/-- Translation of `NewConcatLexer` from `language.go`: run the children in order at the
cumulative position; on success, a single collected child is returned
directly, otherwise the children are wrapped in a node named `name` with
`nil` data. -/
def NewConcatLexer (name : String) (deps : List Lexeme) : Lexeme :=
  .mk name deps fun s pos =>
    match concatRun s pos deps 0 [] with
    | (some e, _, _) => (none, some e, 0)
    | (none, [c], offset) => (some c, none, offset)
    | (none, children, offset) =>
      (some (.mk name [] (children.map some)), none, offset)

/-- The unbounded `for { ... }` loop shared by `NewPlusClosure` and
`NewStarClosure`: call the child lexer at `pos`; an error breaks the loop
(returning the position reached and the children collected so far, the
error itself discarded); a success appends the child's tree pointer —
`nil` or not — and advances by the consumed length.  `fuel` bounds the
number of iterations the embedding will unfold; `none` means the Go loop
has not exited within `fuel` iterations (for a child that keeps succeeding
without consuming, it never exits at all). -/
def repLoop (lexer : Source → Nat → LexResult) (s : Source) :
    Nat → Nat → List (Option ParseTree) → Option (Nat × List (Option ParseTree))
  | 0, _, _ => none
  | fuel + 1, pos, acc =>
    match lexer s pos with
    | (_, some _, _) => some (pos, acc)
    | (next, none, off) => repLoop lexer s fuel (pos + off) (acc ++ [next])

/-- Translation of `NewPlusClosure` from `language.go`: the first attempt must succeed
(else the child's error is returned with `(nil, err, 0)`); afterwards the
repetition loop runs and the collected children are wrapped in a node named
`lex.Name ++ "+"` whose consumed length is `pos - start`. -/
def NewPlusClosure (lex : Lexeme) (fuel : Nat) (s : Source) (pos : Nat) :
    Option LexResult :=
  match lex.lexer s pos with
  | (_, some e, _) => some (none, some e, 0)
  | (next, none, off) =>
    (repLoop lex.lexer s fuel (pos + off) [next]).map fun r =>
      (some (.mk (lex.name ++ "+") [] r.2), none, r.1 - pos)

/-- Translation of `NewStarClosure` from `language.go`: the repetition loop runs from the
start position with no required first match; the collected children are
wrapped in a node named `lex.Name ++ "*"`. -/
def NewStarClosure (lex : Lexeme) (fuel : Nat) (s : Source) (pos : Nat) :
    Option LexResult :=
  (repLoop lex.lexer s fuel pos []).map fun r =>
    (some (.mk (lex.name ++ "*") [] r.2), none, r.1 - pos)

/-- Translation of `NewOptionClosure` from `language.go`: run the child once, discard its
error, and return its tree and offset with a `nil` error. -/
def NewOptionClosure (lex : Lexeme) : Lexeme :=
  .mk (lex.name ++ "?") [lex] fun s pos =>
    let r := lex.lexer s pos
    (r.1, none, r.2.2)

/-- Translation of `NewAlternateLexer` from `language.go`: try `lhs`; on success return its
result; otherwise try `rhs` at the same position, returning its success or,
if it also fails, `(nil, err, 0)` with the right child's error. -/
def NewAlternateLexer (name : String) (lhs rhs : Lexeme) : Lexeme :=
  .mk name [lhs, rhs] fun s pos =>
    match lhs.lexer s pos with
    | (tree, none, off) => (tree, none, off)
    | (_, some _, _) =>
      match rhs.lexer s pos with
      | (_, some e, _) => (none, some e, 0)
      | (tree, none, off) => (tree, none, off)

/-- Translation of `NewDiscardLexer` from `language.go`: run the child, ignore its tree and
its error, and return `(nil, nil, offset)`. -/
def NewDiscardLexer (lex : Lexeme) : Lexeme :=
  .mk (lex.name ++ "^") [lex] fun s pos =>
    let r := lex.lexer s pos
    (none, none, r.2.2)

/-- Translation of `Language` from `language.go`: the facade owning the root rule. -/
structure Language where
  root : Lexeme

/-- Translation of `Language.Parse` from `language.go`, with the `io.Reader` materialised
into the byte buffer up front (`NewSource`'s possible I/O failure is outside
the engine): invoke the root's lexer at offset 0 and return the tree and the
error, dropping the consumed length. -/
def Language.parse (l : Language) (input : List Nat) : Option ParseTree × Option Err :=
  let r := l.root.lexer ⟨input⟩ 0
  (r.1, r.2.1)

/-- Translation of `Language.ParseString` from `language.go`: identical to `parse` on the
string's bytes. -/
def Language.parseString (l : Language) (source : String) :
    Option ParseTree × Option Err :=
  l.parse (strBytes source)

/-- The cross-cutting invariant of claim C10: whenever a lexer reports an
error, it reports a `nil` tree and zero consumed bytes. -/
def ErrInvariant (lexer : Source → Nat → LexResult) : Prop :=
  ∀ s pos t e n, lexer s pos = (t, some e, n) → t = none ∧ n = 0

/-- Direct-recursion reading of the repetition loop, following the spec's
words for Plus/Star (§4.4): retry the child at the advancing position,
collect each successful match as a child, stop at the first failure (which
is not itself an error).  Returns the collected children and the total
consumed length; `none` on fuel exhaustion, mirroring `repLoop`. -/
def repMatches (lexer : Source → Nat → LexResult) (s : Source) :
    Nat → Nat → Option (List (Option ParseTree) × Nat)
  | 0, _ => none
  | fuel + 1, pos =>
    match lexer s pos with
    | (_, some _, _) => some ([], 0)
    | (next, none, off) =>
      (repMatches lexer s fuel (pos + off)).map fun r => (next :: r.1, off + r.2)

/-- Direct-recursion reading of concatenation, following the spec's words
(§4.4): try each child in order at the cumulative position; any child
failure aborts the whole run with that failure and no partial result;
children returning no tree contribute only their consumed length. -/
def concatMatches (s : Source) : List Lexeme → Nat → Option Err × List ParseTree × Nat
  | [], _ => (none, [], 0)
  | dep :: rest, pos =>
    match dep.lexer s pos with
    | (_, some e, _) => (some e, [], 0)
    | (tree, none, l) =>
      match concatMatches s rest (pos + l) with
      | (some e, _, _) => (some e, [], 0)
      | (none, ts, m) => (none, tree.toList ++ ts, l + m)

/-- Hereditary shape predicate over parse trees: every node that has a
non-empty child list carries empty raw bytes, recursively through all
non-`nil` children. -/
inductive NodeInv : ParseTree → Prop where
  | mk (typ : String) (data : List Nat) (children : List (Option ParseTree))
      (hdata : children ≠ [] → data = [])
      (hch : ∀ t, some t ∈ children → NodeInv t) :
      NodeInv (.mk typ data children)

/-- A lexer that only ever returns trees satisfying `NodeInv`. -/
def ProducesInv (lexer : Source → Nat → LexResult) : Prop :=
  ∀ s pos t e n, lexer s pos = (some t, e, n) → NodeInv t

/-- The accumulator-threading Go loop computes exactly the direct recursion:
the children collected are the accumulator followed by the matches, and the
final position is the start plus the total consumed length. -/
theorem repLoop_eq_repMatches (lexer : Source → Nat → LexResult) (s : Source) :
    ∀ fuel pos acc, repLoop lexer s fuel pos acc
      = (repMatches lexer s fuel pos).map fun r => (pos + r.2, acc ++ r.1)
  | 0, _, _ => rfl
  | fuel + 1, pos, acc => by
    rw [repLoop, repMatches]
    rcases h : lexer s pos with ⟨t, e, off⟩
    rcases e with _ | e
    · dsimp only
      rw [repLoop_eq_repMatches lexer s fuel (pos + off) (acc ++ [t])]
      cases repMatches lexer s fuel (pos + off) with
      | none => rfl
      | some r => simp [Nat.add_assoc]
    · simp

/-- The accumulator-threading Go loop of `NewConcatLexer` computes exactly
the direct recursion `concatMatches`. -/
theorem concatRun_eq_concatMatches (s : Source) (pos : Nat) :
    ∀ deps offset children, concatRun s pos deps offset children
      = match concatMatches s deps (pos + offset) with
        | (some e, _, _) => (some e, [], 0)
        | (none, ts, m) => (none, children ++ ts, offset + m)
  | [], offset, children => by simp [concatRun, concatMatches]
  | dep :: rest, offset, children => by
    rw [concatRun, concatMatches]
    rcases h : dep.lexer s (pos + offset) with ⟨t, e, l⟩
    rcases e with _ | e
    · rcases t with _ | tree
      · dsimp only
        rw [concatRun_eq_concatMatches s pos rest (offset + l) children]
        rw [Nat.add_assoc]
        cases concatMatches s rest (pos + (offset + l)) with
        | mk e r =>
          rcases e with _ | e
          · simp [Nat.add_assoc]
          · simp
      · dsimp only
        rw [concatRun_eq_concatMatches s pos rest (offset + l) (children ++ [tree])]
        rw [Nat.add_assoc]
        cases concatMatches s rest (pos + (offset + l)) with
        | mk e r =>
          rcases e with _ | e
          · simp [Nat.add_assoc]
          · simp
    · simp

/-- A failed literal match reports a `nil` tree and zero consumption. -/
theorem errInvariant_literal (typ valid : String) :
    ErrInvariant (NewLiteralLexer typ valid).lexer := by
  intro s pos t e n h
  rw [NewLiteralLexer, Lexeme.lexer] at h
  rcases hc : s.consumeLiteral (strBytes valid) pos with _ | m <;>
    rw [hc] at h <;> simp_all

/-- A failed pattern match reports a `nil` tree and zero consumption, for
every anchored consume function. -/
theorem errInvariant_regexp (typ pat : String)
    (consume : Source → Nat → Option (List Nat)) :
    ErrInvariant (NewRegexpLexer typ pat consume).lexer := by
  intro s pos t e n h
  rw [NewRegexpLexer, Lexeme.lexer] at h
  rcases hc : consume s pos with _ | m <;> rw [hc] at h <;> simp_all

/-- A failed concatenation reports a `nil` tree and zero consumption. -/
theorem errInvariant_concat (name : String) (deps : List Lexeme) :
    ErrInvariant (NewConcatLexer name deps).lexer := by
  intro s pos t e n h
  rw [NewConcatLexer, Lexeme.lexer] at h
  rcases hc : concatRun s pos deps 0 [] with ⟨e', ts, m⟩
  rw [hc] at h
  rcases e' with _ | e'
  · rcases ts with _ | ⟨c, cs⟩ <;> [skip; rcases cs with _ | _] <;> simp_all
  · simp_all

/-- A failed alternation (both branches failing) reports a `nil` tree and
zero consumption. -/
theorem errInvariant_alternate (name : String) (lhs rhs : Lexeme) :
    ErrInvariant (NewAlternateLexer name lhs rhs).lexer := by
  intro s pos t e n h
  rw [NewAlternateLexer, Lexeme.lexer] at h
  rcases hl : lhs.lexer s pos with ⟨tl, el, nl⟩
  rw [hl] at h
  rcases el with _ | el
  · simp_all
  · rcases hr : rhs.lexer s pos with ⟨tr, er, nr⟩
    rw [hr] at h
    rcases er with _ | er <;> simp_all

/-- The option closure never reports an error at all. -/
theorem option_no_error (lex : Lexeme) (s : Source) (pos : Nat) :
    ((NewOptionClosure lex).lexer s pos).2.1 = none := by
  rw [NewOptionClosure, Lexeme.lexer]

/-- The discard closure never reports an error at all. -/
theorem discard_no_error (lex : Lexeme) (s : Source) (pos : Nat) :
    ((NewDiscardLexer lex).lexer s pos).2.1 = none := by
  rw [NewDiscardLexer, Lexeme.lexer]

/-- A failing plus closure reports a `nil` tree and zero consumption. -/
theorem errInvariant_plus (lex : Lexeme) (fuel : Nat) (s : Source) (pos : Nat)
    (t : Option ParseTree) (e : Err) (n : Nat)
    (h : NewPlusClosure lex fuel s pos = some (t, some e, n)) :
    t = none ∧ n = 0 := by
  rw [NewPlusClosure] at h
  rcases hf : lex.lexer s pos with ⟨t0, e0, off0⟩
  rw [hf] at h
  rcases e0 with _ | e0
  · dsimp only at h
    rcases hl : repLoop lex.lexer s fuel (pos + off0) [t0] with _ | r <;>
      rw [hl] at h <;> simp_all
  · simp_all

/-- The star closure, whenever its loop exits, reports no error. -/
theorem errInvariant_star (lex : Lexeme) (fuel : Nat) (s : Source) (pos : Nat)
    (t : Option ParseTree) (e : Err) (n : Nat)
    (h : NewStarClosure lex fuel s pos = some (t, some e, n)) :
    t = none ∧ n = 0 := by
  rw [NewStarClosure] at h
  rcases hl : repLoop lex.lexer s fuel pos [] with _ | r <;>
    rw [hl] at h <;> simp_all

/-- A childless node satisfies the shape invariant whatever its data. -/
theorem nodeInv_leaf (typ : String) (data : List Nat) : NodeInv (.mk typ data []) :=
  .mk typ data [] (fun h => absurd rfl h) (fun _ ht => absurd ht (List.not_mem_nil _))

/-- Every tree collected by a successful `concatMatches` run over children
that only produce invariant trees is itself invariant. -/
theorem concatMatches_inv (s : Source) :
    ∀ deps pos ts m, (∀ d ∈ deps, ProducesInv (Lexeme.lexer d)) →
      concatMatches s deps pos = (none, ts, m) → ∀ t ∈ ts, NodeInv t
  | [], pos, ts, m, _, h => by
    rw [concatMatches] at h
    simp_all
  | dep :: rest, pos, ts, m, hdeps, h => by
    rw [concatMatches] at h
    rcases hf : dep.lexer s pos with ⟨t0, e0, l⟩
    rw [hf] at h
    rcases e0 with _ | e0
    · dsimp only at h
      rcases hr : concatMatches s rest (pos + l) with ⟨e', ts', m'⟩
      rw [hr] at h
      rcases e' with _ | e'
      · obtain ⟨hts, -⟩ : t0.toList ++ ts' = ts ∧ l + m' = m := by simp_all
        intro t ht
        rw [← hts] at ht
        rcases List.mem_append.mp ht with ht | ht
        · rcases t0 with _ | u
          · simp at ht
          · simp at ht
            subst ht
            exact hdeps dep (by simp) s pos t none l hf
        · exact concatMatches_inv s rest (pos + l) ts' m'
            (fun d hd => hdeps d (List.mem_cons_of_mem _ hd)) hr t ht
      · simp_all
    · simp_all

/-- Every tree collected by a terminating repetition over a child that only
produces invariant trees is itself invariant. -/
theorem repMatches_inv (lexer : Source → Nat → LexResult) (s : Source)
    (hinv : ProducesInv lexer) :
    ∀ fuel pos ts m, repMatches lexer s fuel pos = some (ts, m) →
      ∀ t, some t ∈ ts → NodeInv t
  | 0, pos, ts, m, h => by simp [repMatches] at h
  | fuel + 1, pos, ts, m, h => by
    rw [repMatches] at h
    rcases hf : lexer s pos with ⟨t0, e0, off⟩
    rw [hf] at h
    rcases e0 with _ | e0
    · dsimp only at h
      rcases hr : repMatches lexer s fuel (pos + off) with _ | ⟨ts', m'⟩ <;>
        rw [hr] at h
      · exact absurd h (by simp)
      · rw [Option.map_some'] at h
        have hts : t0 :: ts' = ts := by
          have := congrArg (fun r => Prod.fst r) (Option.some.inj h)
          simpa using this
        intro t ht
        rw [← hts] at ht
        rcases List.mem_cons.mp ht with ht | ht
        · rw [← ht] at hf
          exact hinv s pos t none off hf
        · exact repMatches_inv lexer s hinv fuel (pos + off) ts' m' hr t ht
    · have hts : ([] : List (Option ParseTree)) = ts := by
        have := congrArg (fun r => Prod.fst r) (Option.some.inj h)
        simpa using this
      intro t ht
      rw [← hts] at ht
      exact absurd ht (List.not_mem_nil _)

/-- The literal combinator produces only invariant (leaf) trees. -/
theorem producesInv_literal (typ valid : String) :
    ProducesInv (NewLiteralLexer typ valid).lexer := by
  intro s pos t e n h
  rw [NewLiteralLexer, Lexeme.lexer] at h
  rcases hc : s.consumeLiteral (strBytes valid) pos with _ | m <;> rw [hc] at h
  · simp at h
  · simp only [Prod.mk.injEq, Option.some.injEq] at h
    obtain ⟨ht, -⟩ := h
    rw [← ht]
    exact nodeInv_leaf typ (strBytes valid)

/-- The regexp combinator produces only invariant (leaf) trees. -/
theorem producesInv_regexp (typ pat : String)
    (consume : Source → Nat → Option (List Nat)) :
    ProducesInv (NewRegexpLexer typ pat consume).lexer := by
  intro s pos t e n h
  rw [NewRegexpLexer, Lexeme.lexer] at h
  rcases hc : consume s pos with _ | m <;> rw [hc] at h
  · simp at h
  · simp only [Prod.mk.injEq, Option.some.injEq] at h
    obtain ⟨ht, -⟩ := h
    rw [← ht]
    exact nodeInv_leaf typ m

/-- Concatenation preserves the shape invariant. -/
theorem producesInv_concat (name : String) (deps : List Lexeme)
    (hdeps : ∀ d ∈ deps, ProducesInv (Lexeme.lexer d)) :
    ProducesInv (NewConcatLexer name deps).lexer := by
  intro s pos t e n h
  rw [NewConcatLexer, Lexeme.lexer] at h
  rw [concatRun_eq_concatMatches s pos deps 0 [], Nat.add_zero] at h
  rcases hm : concatMatches s deps pos with ⟨e', ts, m⟩
  rw [hm] at h
  rcases e' with _ | e'
  · have hts := concatMatches_inv s deps pos ts m hdeps hm
    simp only [List.nil_append, Nat.zero_add] at h
    rcases ts with _ | ⟨c, cs⟩
    · have ht : some (ParseTree.mk name [] []) = some t := by
        have := congrArg (fun r => Prod.fst r) h
        simpa using this
      rw [← Option.some.inj ht]
      exact nodeInv_leaf name []
    · rcases cs with _ | ⟨c2, cs⟩
      · have ht : some c = some t := congrArg (fun r => Prod.fst r) h
        rw [← Option.some.inj ht]
        exact hts c (by simp)
      · have ht : some (ParseTree.mk name [] ((c :: c2 :: cs).map some)) = some t := by
          have := congrArg (fun r => Prod.fst r) h
          simpa using this
        rw [← Option.some.inj ht]
        refine .mk name [] _ (fun _ => rfl) ?_
        intro u hu
        rw [List.mem_map] at hu
        obtain ⟨u', hu', hequ⟩ := hu
        rw [Option.some.injEq] at hequ
        rw [← hequ]
        exact hts u' hu'
  · exact absurd (congrArg (fun r => Prod.fst r) h) (by simp)

/-- The plus closure produces only invariant trees (when its loop exits). -/
theorem producesInv_plus (lex : Lexeme) (fuel : Nat) (s : Source) (pos : Nat)
    (t : ParseTree) (e : Option Err) (n : Nat)
    (hinv : ProducesInv (Lexeme.lexer lex))
    (h : NewPlusClosure lex fuel s pos = some (some t, e, n)) : NodeInv t := by
  rw [NewPlusClosure] at h
  rcases hf : lex.lexer s pos with ⟨t0, e0, off⟩
  rw [hf] at h
  rcases e0 with _ | e0
  · dsimp only at h
    rw [repLoop_eq_repMatches] at h
    rcases hr : repMatches lex.lexer s fuel (pos + off) with _ | ⟨ts, m⟩ <;>
      rw [hr] at h
    · exact absurd h (by simp)
    · rw [Option.map_some'] at h
      have ht : some (ParseTree.mk (lex.name ++ "+") [] (t0 :: ts)) = some t := by
        have := congrArg (fun r => Prod.fst r) (Option.some.inj h)
        simpa using this
      rw [← Option.some.inj ht]
      refine .mk _ [] _ (fun _ => rfl) ?_
      intro u hu
      rcases List.mem_cons.mp hu with hu | hu
      · rw [← hu] at hf
        exact hinv s pos u none off hf
      · exact repMatches_inv lex.lexer s hinv fuel (pos + off) ts m hr u hu
  · exact absurd (congrArg (fun r => Prod.fst r) (Option.some.inj h)) (by simp)

/-- The star closure produces only invariant trees (when its loop exits). -/
theorem producesInv_star (lex : Lexeme) (fuel : Nat) (s : Source) (pos : Nat)
    (t : ParseTree) (e : Option Err) (n : Nat)
    (hinv : ProducesInv (Lexeme.lexer lex))
    (h : NewStarClosure lex fuel s pos = some (some t, e, n)) : NodeInv t := by
  rw [NewStarClosure, repLoop_eq_repMatches] at h
  rcases hr : repMatches lex.lexer s fuel pos with _ | ⟨ts, m⟩ <;> rw [hr] at h
  · exact absurd h (by simp)
  · rw [Option.map_some'] at h
    have ht : some (ParseTree.mk (lex.name ++ "*") [] ts) = some t := by
      have := congrArg (fun r => Prod.fst r) (Option.some.inj h)
      simpa using this
    rw [← Option.some.inj ht]
    refine .mk _ [] _ (fun _ => rfl) ?_
    intro u hu
    exact repMatches_inv lex.lexer s hinv fuel pos ts m hr u hu

/-- The option closure forwards only invariant trees. -/
theorem producesInv_option (lex : Lexeme)
    (hinv : ProducesInv (Lexeme.lexer lex)) :
    ProducesInv (NewOptionClosure lex).lexer := by
  intro s pos t e n h
  rw [NewOptionClosure, Lexeme.lexer] at h
  dsimp only at h
  rcases hf : lex.lexer s pos with ⟨t0, e0, off⟩
  rw [hf] at h
  simp only [Prod.mk.injEq] at h
  obtain ⟨ht, -⟩ := h
  rw [ht] at hf
  exact hinv s pos t e0 off hf

/-- The alternate combinator forwards only invariant trees. -/
theorem producesInv_alternate (name : String) (lhs rhs : Lexeme)
    (hl : ProducesInv (Lexeme.lexer lhs)) (hr : ProducesInv (Lexeme.lexer rhs)) :
    ProducesInv (NewAlternateLexer name lhs rhs).lexer := by
  intro s pos t e n h
  rw [NewAlternateLexer, Lexeme.lexer] at h
  rcases h1 : lhs.lexer s pos with ⟨t1, e1, n1⟩
  rw [h1] at h
  rcases e1 with _ | e1
  · simp only [Prod.mk.injEq] at h
    obtain ⟨ht, -⟩ := h
    rw [ht] at h1
    exact hl s pos t none n1 h1
  · dsimp only at h
    rcases h2 : rhs.lexer s pos with ⟨t2, e2, n2⟩
    rw [h2] at h
    rcases e2 with _ | e2
    · simp only [Prod.mk.injEq] at h
      obtain ⟨ht, -⟩ := h
      rw [ht] at h2
      exact hr s pos t none n2 h2
    · simp at h

/-- The discard closure never returns a tree, so it trivially produces only
invariant trees. -/
theorem producesInv_discard (lex : Lexeme) :
    ProducesInv (NewDiscardLexer lex).lexer := by
  intro s pos t e n h
  rw [NewDiscardLexer, Lexeme.lexer] at h
  simp at h

/-- Claim C1.  The claim states that a child failure propagates out of
Discard as a failure.  The code does not do this: discarding a child that
fails (here the literal `x` at position 0 of the empty input, whose failure
is recorded in the first conjunct) yields a success — `nil` tree, `nil`
error, zero consumed bytes.  The child's error is swallowed. -/
theorem c1_discard_swallows_child_failure :
    (NewLiteralLexer "x" "x").lexer ⟨[]⟩ 0
        = (none, some (.expectedLiteral "x" []), 0)
    ∧ (NewDiscardLexer (NewLiteralLexer "x" "x")).lexer ⟨[]⟩ 0 = (none, none, 0) :=
  ⟨rfl, rfl⟩

/-- The Optional closure over the literal `x` succeeds while consuming zero
bytes at every position of the empty buffer (the literal itself fails, and
Optional absorbs the failure). -/
theorem optionalChild_zero_consuming (pos : Nat) :
    (NewOptionClosure (NewLiteralLexer "x" "x")).lexer ⟨[]⟩ pos = (none, none, 0) := by
  rw [NewOptionClosure, Lexeme.lexer]
  dsimp only
  rw [NewLiteralLexer, Lexeme.lexer]
  have hc : Source.consumeLiteral ⟨[]⟩ (strBytes "x") pos = none := by
    rw [Source.consumeLiteral]
    simp [List.isPrefixOf_iff_prefix, strBytes]
  rw [hc]

/-- The repetition loop over a zero-consuming, always-succeeding child never
exits, whatever the iteration bound. -/
theorem repLoop_diverges_on_zero_consuming : ∀ fuel pos acc,
    repLoop (NewOptionClosure (NewLiteralLexer "x" "x")).lexer ⟨[]⟩ fuel pos acc
      = none
  | 0, _, _ => rfl
  | fuel + 1, pos, acc => by
    rw [repLoop, optionalChild_zero_consuming pos]
    dsimp only
    exact repLoop_diverges_on_zero_consuming fuel (pos + 0) (acc ++ [none])

/-- Claim C2.  The claim states that Star and Plus still terminate on a
child whose match can succeed consuming zero bytes (such as an Optional
child).  The code does not guard against this: over the child `('x')?` on
empty input — which succeeds consuming zero bytes at every position — the
repetition loop never exits, for every iteration bound `fuel`, i.e. the Go
loop retries the child at the same position forever and neither closure
ever returns. -/
theorem c2_star_plus_diverge_on_zero_consuming_child (fuel pos : Nat) :
    NewStarClosure (NewOptionClosure (NewLiteralLexer "x" "x")) fuel ⟨[]⟩ pos = none
    ∧ NewPlusClosure (NewOptionClosure (NewLiteralLexer "x" "x")) fuel ⟨[]⟩ pos
        = none := by
  constructor
  · rw [NewStarClosure, repLoop_diverges_on_zero_consuming fuel pos []]
    rfl
  · rw [NewPlusClosure, optionalChild_zero_consuming pos]
    dsimp only
    rw [repLoop_diverges_on_zero_consuming fuel (pos + 0) [none]]
    rfl

/-- Claim C3.  Optional attempts the child once; a child success is
returned unchanged (tree and consumed length); a child failure — for any
child obeying the package-wide error invariant — becomes a success with no
tree and zero consumed length; and Optional never returns a failure. -/
theorem c3_optional_never_fails (lex : Lexeme) (s : Source) (pos : Nat) :
    (∀ t n, lex.lexer s pos = (t, none, n) →
        (NewOptionClosure lex).lexer s pos = (t, none, n))
    ∧ (∀ t e n, ErrInvariant (Lexeme.lexer lex) → lex.lexer s pos = (t, some e, n) →
        (NewOptionClosure lex).lexer s pos = (none, none, 0))
    ∧ ((NewOptionClosure lex).lexer s pos).2.1 = none := by
  refine ⟨?_, ?_, option_no_error lex s pos⟩
  · intro t n h
    rw [NewOptionClosure, Lexeme.lexer]
    dsimp only
    rw [h]
  · intro t e n hinv h
    obtain ⟨ht, hn⟩ := hinv s pos t e n h
    rw [NewOptionClosure, Lexeme.lexer]
    dsimp only
    rw [h, ht, hn]

/-- Witness for C3: the optional literal `x` on the empty input (where the
child fails) returns success with no tree and zero consumed length. -/
theorem c3_witness :
    (NewOptionClosure (NewLiteralLexer "x" "x")).lexer ⟨[]⟩ 0 = (none, none, 0) :=
  (c3_optional_never_fails (NewLiteralLexer "x" "x") ⟨[]⟩ 0).2.1 none
    (.expectedLiteral "x" []) 0 (errInvariant_literal "x" "x") rfl

/-- Claim C4.  Alternate attempts the left child first and returns a left
success unchanged; on a left failure it attempts the right child at the
same original position and returns its success unchanged; it fails only
when both children fail (and then with the right child's error, a nil tree
and zero consumption).  Concretely, for `r <- 'a' / 'b'` on input `"b"`
the left literal fails and the match succeeds through the right
alternative, consuming exactly one byte. -/
theorem c4_alternate_ordered_choice :
    (∀ (name : String) (lhs rhs : Lexeme) (s : Source) (pos : Nat) t off,
        lhs.lexer s pos = (t, none, off) →
        (NewAlternateLexer name lhs rhs).lexer s pos = (t, none, off))
    ∧ (∀ (name : String) (lhs rhs : Lexeme) (s : Source) (pos : Nat) t e n t2 off2,
        lhs.lexer s pos = (t, some e, n) → rhs.lexer s pos = (t2, none, off2) →
        (NewAlternateLexer name lhs rhs).lexer s pos = (t2, none, off2))
    ∧ (∀ (name : String) (lhs rhs : Lexeme) (s : Source) (pos : Nat) t e n t2 e2 n2,
        lhs.lexer s pos = (t, some e, n) → rhs.lexer s pos = (t2, some e2, n2) →
        (NewAlternateLexer name lhs rhs).lexer s pos = (none, some e2, 0))
    ∧ (NewLiteralLexer "a" "a").lexer ⟨strBytes "b"⟩ 0
        = (none, some (.expectedLiteral "a" (strBytes "b")), 0)
    ∧ (NewAlternateLexer "r" (NewLiteralLexer "a" "a")
        (NewLiteralLexer "b" "b")).lexer ⟨strBytes "b"⟩ 0
        = (some (.mk "b" (strBytes "b") []), none, 1) := by
  refine ⟨?_, ?_, ?_, rfl, rfl⟩
  · intro name lhs rhs s pos t off h
    rw [NewAlternateLexer, Lexeme.lexer]
    rw [h]
  · intro name lhs rhs s pos t e n t2 off2 h1 h2
    rw [NewAlternateLexer, Lexeme.lexer]
    rw [h1]
    dsimp only
    rw [h2]
  · intro name lhs rhs s pos t e n t2 e2 n2 h1 h2
    rw [NewAlternateLexer, Lexeme.lexer]
    rw [h1]
    dsimp only
    rw [h2]

/-- Witness for C4: ordered choice at the concrete `'a' / 'b'` grammar on
input `"b"` (byte 98), reached through the right-branch clause of the
theorem. -/
theorem c4_witness :
    (NewAlternateLexer "r" (NewLiteralLexer "a" "a")
        (NewLiteralLexer "b" "b")).lexer ⟨[98]⟩ 0
      = (some (.mk "b" [98] []), none, 1) :=
  c4_alternate_ordered_choice.2.1 "r" (NewLiteralLexer "a" "a")
    (NewLiteralLexer "b" "b") ⟨[98]⟩ 0 none (.expectedLiteral "a" [98]) 0
    (some (.mk "b" [98] [])) 1 rfl rfl

/-- Claim C5.  The concatenation combinator is exactly the spec-level
direct recursion `concatMatches` — each child tried in order at the
cumulative position, any child failure aborting the whole run with that
failure and no partial result, tree-less children contributing only their
consumed length — followed by the collapse rule: a run that collected
exactly one tree returns that tree directly, any other run is wrapped in a
composite node named `name`. -/
theorem c5_concat_characterisation (name : String) (deps : List Lexeme)
    (s : Source) (pos : Nat) :
    (NewConcatLexer name deps).lexer s pos
      = match concatMatches s deps pos with
        | (some e, _, _) => (none, some e, 0)
        | (none, [c], off) => (some c, none, off)
        | (none, ts, off) => (some (.mk name [] (ts.map some)), none, off) := by
  rw [NewConcatLexer, Lexeme.lexer]
  rw [concatRun_eq_concatMatches s pos deps 0 [], Nat.add_zero]
  rcases concatMatches s deps pos with ⟨e, ts, m⟩
  rcases e with _ | e
  · dsimp only
    rcases ts with _ | ⟨c, cs⟩
    · simp
    · rcases cs with _ | _ <;> simp
  · rfl

/-- Claim C6.  Plus fails (with the child's error, no tree, zero length)
whenever the first attempt of the child fails; otherwise it collects the
first match followed by every successful retry at the advancing position
(`repMatches`), stopping at the first failure without error, and succeeds
with those children and the total consumed length.  Concretely, `'x'+` on
the empty input fails, for every iteration bound. -/
theorem c6_plus_requires_first_success :
    (∀ (lex : Lexeme) (fuel : Nat) (s : Source) (pos : Nat) t e n,
        lex.lexer s pos = (t, some e, n) →
        NewPlusClosure lex fuel s pos = some (none, some e, 0))
    ∧ (∀ (lex : Lexeme) (fuel : Nat) (s : Source) (pos : Nat) next off ts m,
        lex.lexer s pos = (next, none, off) →
        repMatches (Lexeme.lexer lex) s fuel (pos + off) = some (ts, m) →
        NewPlusClosure lex fuel s pos
          = some (some (.mk (lex.name ++ "+") [] (next :: ts)), none, off + m))
    ∧ (∀ fuel, NewPlusClosure (NewLiteralLexer "x" "x") fuel ⟨[]⟩ 0
        = some (none, some (.expectedLiteral "x" []), 0)) := by
  refine ⟨?_, ?_, fun _ => rfl⟩
  · intro lex fuel s pos t e n h
    rw [NewPlusClosure, h]
  · intro lex fuel s pos next off ts m h hm
    rw [NewPlusClosure, h]
    dsimp only
    rw [repLoop_eq_repMatches, hm]
    rw [Option.map_some', Option.map_some']
    dsimp only
    rw [List.singleton_append]
    have harith : pos + off + m - pos = off + m := by omega
    rw [harith]

/-- Witness for C6: `'x'+` on the two-byte input `"xx"` with iteration
bound 3 collects both matches and consumes two bytes, through the
loop-characterisation clause of the theorem. -/
theorem c6_witness :
    NewPlusClosure (NewLiteralLexer "x" "x") 3 ⟨[120, 120]⟩ 0
      = some (some (.mk "x+" []
          [some (.mk "x" [120] []), some (.mk "x" [120] [])]), none, 2) :=
  c6_plus_requires_first_success.2.1 (NewLiteralLexer "x" "x") 3 ⟨[120, 120]⟩ 0
    (some (.mk "x" [120] [])) 1 [some (.mk "x" [120] [])] 1 rfl rfl

/-- Claim C7.  Star never fails: whatever result it returns carries no
error; whenever its loop exits it succeeds with the collected matches
(`repMatches`) and their total consumed length.  Concretely, `'x'*` on the
empty input succeeds with zero consumed length and an empty child list,
for every positive iteration bound. -/
theorem c7_star_never_fails :
    (∀ (lex : Lexeme) (fuel : Nat) (s : Source) (pos : Nat) r,
        NewStarClosure lex fuel s pos = some r → r.2.1 = none)
    ∧ (∀ (lex : Lexeme) (fuel : Nat) (s : Source) (pos : Nat) ts m,
        repMatches (Lexeme.lexer lex) s fuel pos = some (ts, m) →
        NewStarClosure lex fuel s pos
          = some (some (.mk (lex.name ++ "*") [] ts), none, m))
    ∧ (∀ fuel, NewStarClosure (NewLiteralLexer "x" "x") (fuel + 1) ⟨[]⟩ 0
        = some (some (.mk "x*" [] []), none, 0)) := by
  refine ⟨?_, ?_, fun _ => rfl⟩
  · intro lex fuel s pos r h
    rw [NewStarClosure] at h
    rcases hl : repLoop lex.lexer s fuel pos [] with _ | l <;> rw [hl] at h
    · exact absurd h (by simp)
    · rw [Option.map_some'] at h
      rw [← Option.some.inj h]
  · intro lex fuel s pos ts m hm
    rw [NewStarClosure, repLoop_eq_repMatches, hm]
    rw [Option.map_some', Option.map_some']
    dsimp only
    rw [List.nil_append, Nat.add_sub_cancel_left]

/-- Witness for C7: `'x'*` on the one-byte input `"x"` with iteration
bound 2 succeeds with one collected match and one consumed byte, through
the loop-characterisation clause of the theorem. -/
theorem c7_witness :
    NewStarClosure (NewLiteralLexer "x" "x") 2 ⟨[120]⟩ 0
      = some (some (.mk "x*" [] [some (.mk "x" [120] [])]), none, 1) :=
  c7_star_never_fails.2.1 (NewLiteralLexer "x" "x") 2 ⟨[120]⟩ 0
    [some (.mk "x" [120] [])] 1 rfl

/-- Claim C8.  The Language facade invokes the root rule's lexer at offset
0 and returns exactly its tree and error components, dropping the consumed
length (so trailing unconsumed input after a successful root match is not
an error); `parseString` is `parse` on the string's bytes; a root success
yields the tree; a root failure — for a root obeying the package-wide
error invariant — yields only the failure, with no partial tree. -/
theorem c8_language_facade (root : Lexeme) (input : List Nat) :
    (Language.mk root).parse input
        = ((root.lexer ⟨input⟩ 0).1, (root.lexer ⟨input⟩ 0).2.1)
    ∧ (∀ src : String, (Language.mk root).parseString src
        = (Language.mk root).parse (strBytes src))
    ∧ (∀ t n, root.lexer ⟨input⟩ 0 = (t, none, n) →
        (Language.mk root).parse input = (t, none))
    ∧ (∀ t e n, ErrInvariant (Lexeme.lexer root) → root.lexer ⟨input⟩ 0 = (t, some e, n) →
        (Language.mk root).parse input = (none, some e)) := by
  refine ⟨rfl, fun _ => rfl, ?_, ?_⟩
  · intro t n h
    rw [Language.parse]
    dsimp only
    rw [h]
  · intro t e n hinv h
    obtain ⟨ht, -⟩ := hinv ⟨input⟩ 0 t e n h
    rw [Language.parse]
    dsimp only
    rw [h, ht]

/-- Witness for C8: a root literal `a` against input `"ab"` — the root
match succeeds on the first byte, the trailing byte 98 stays unconsumed,
and the facade still reports plain success. -/
theorem c8_witness :
    (Language.mk (NewLiteralLexer "a" "a")).parse [97, 98]
      = (some (.mk "a" [97] []), none) :=
  (c8_language_facade (NewLiteralLexer "a" "a") [97, 98]).2.2.1
    (some (.mk "a" [97] [])) 1 rfl

/-- Claim C9 is false as stated: a counterexample.  For the grammar
`top <- 'z' r`, `r <- 'a'^ 'b'^` (both children of `r` discarded) on input
`"zab"`, the match succeeds and the parent's child list contains the node
`r` — a leaf (no children) whose raw bytes are empty, i.e. a leaf that
neither carries non-empty raw bytes nor is absent from its parent's child
list. -/
theorem c9_counterexample :
    (NewConcatLexer "top" [NewLiteralLexer "z" "z",
        NewConcatLexer "r" [NewDiscardLexer (NewLiteralLexer "a" "a"),
          NewDiscardLexer (NewLiteralLexer "b" "b")]]).lexer ⟨[122, 97, 98]⟩ 0
      = (some (.mk "top" []
          [some (.mk "z" [122] []), some (.mk "r" [] [])]), none, 3)
    ∧ some (ParseTree.mk "r" [] [])
        ∈ (ParseTree.mk "top" []
            [some (.mk "z" [122] []), some (.mk "r" [] [])]).children
    ∧ (ParseTree.mk "r" [] []).children = []
    ∧ (ParseTree.mk "r" [] []).data = [] := by
  refine ⟨rfl, ?_, rfl, rfl⟩
  rw [ParseTree.children]
  simp

/-- Claim C9, amended.  Every Parse Tree node produced by a successful
match satisfies: a node with children has empty raw bytes (composite),
hereditarily (`NodeInv`); but a leaf node need not carry non-empty raw
bytes — a concatenation all of whose children produce no tree (and a
zero-match repetition) is returned as a present leaf node with empty raw
bytes, so leaves carry the raw bytes of their match, possibly empty.
Stated per constructor: every combinator of the package produces only
`NodeInv` trees, given children that do. -/
theorem c9_amended_composite_invariant :
    (∀ typ valid, ProducesInv (NewLiteralLexer typ valid).lexer)
    ∧ (∀ typ pat consume, ProducesInv (NewRegexpLexer typ pat consume).lexer)
    ∧ (∀ name deps, (∀ d ∈ deps, ProducesInv (Lexeme.lexer d)) →
        ProducesInv (NewConcatLexer name deps).lexer)
    ∧ (∀ (lex : Lexeme) (fuel : Nat) (s : Source) (pos : Nat) t e n,
        ProducesInv (Lexeme.lexer lex) →
        NewPlusClosure lex fuel s pos = some (some t, e, n) → NodeInv t)
    ∧ (∀ (lex : Lexeme) (fuel : Nat) (s : Source) (pos : Nat) t e n,
        ProducesInv (Lexeme.lexer lex) →
        NewStarClosure lex fuel s pos = some (some t, e, n) → NodeInv t)
    ∧ (∀ lex : Lexeme, ProducesInv (Lexeme.lexer lex) →
        ProducesInv (NewOptionClosure lex).lexer)
    ∧ (∀ (name : String) (lhs rhs : Lexeme), ProducesInv (Lexeme.lexer lhs) →
        ProducesInv (Lexeme.lexer rhs) →
        ProducesInv (NewAlternateLexer name lhs rhs).lexer)
    ∧ (∀ lex : Lexeme, ProducesInv (NewDiscardLexer lex).lexer) :=
  ⟨producesInv_literal, producesInv_regexp, producesInv_concat,
    fun lex fuel s pos t e n hinv h => producesInv_plus lex fuel s pos t e n hinv h,
    fun lex fuel s pos t e n hinv h => producesInv_star lex fuel s pos t e n hinv h,
    producesInv_option, producesInv_alternate, producesInv_discard⟩

/-- Witness for the amended C9: the tree produced by the counterexample
grammar (`top <- 'z' ('a'^ 'b'^)` on `"zab"`) satisfies the hereditary
composite invariant, derived by applying the amended theorem's
concatenation clause to the concrete match. -/
theorem c9_witness :
    NodeInv (.mk "top" [] [some (.mk "z" [122] []), some (.mk "r" [] [])]) :=
  c9_amended_composite_invariant.2.2.1 "top"
    [NewLiteralLexer "z" "z",
      NewConcatLexer "r" [NewDiscardLexer (NewLiteralLexer "a" "a"),
        NewDiscardLexer (NewLiteralLexer "b" "b")]]
    (by
      intro d hd
      rcases List.mem_cons.mp hd with h | h
      · rw [h]
        exact c9_amended_composite_invariant.1 "z" "z"
      · rcases List.mem_cons.mp h with h | h
        · rw [h]
          refine c9_amended_composite_invariant.2.2.1 "r" _ ?_
          intro d' hd'
          rcases List.mem_cons.mp hd' with h' | h'
          · rw [h']
            exact c9_amended_composite_invariant.2.2.2.2.2.2.2
              (NewLiteralLexer "a" "a")
          · rcases List.mem_cons.mp h' with h' | h'
            · rw [h']
              exact c9_amended_composite_invariant.2.2.2.2.2.2.2
                (NewLiteralLexer "b" "b")
            · exact absurd h' (List.not_mem_nil _)
        · exact absurd h (List.not_mem_nil _))
    ⟨[122, 97, 98]⟩ 0
    (.mk "top" [] [some (.mk "z" [122] []), some (.mk "r" [] [])]) none 3 rfl

/-- Claim C10.  Every lexer built by the package's constructors returns,
together with a non-`nil` error, a `nil` tree and a consumed length of
exactly 0 (for Plus and Star: whenever they return at all); and Optional
and Discard indeed rely on this to report zero consumption when a child
obeying the invariant fails. -/
theorem c10_error_invariant :
    (∀ typ valid, ErrInvariant (NewLiteralLexer typ valid).lexer)
    ∧ (∀ typ pat consume, ErrInvariant (NewRegexpLexer typ pat consume).lexer)
    ∧ (∀ name deps, ErrInvariant (NewConcatLexer name deps).lexer)
    ∧ (∀ (lex : Lexeme) (fuel : Nat) (s : Source) (pos : Nat) t e n,
        NewPlusClosure lex fuel s pos = some (t, some e, n) → t = none ∧ n = 0)
    ∧ (∀ (lex : Lexeme) (fuel : Nat) (s : Source) (pos : Nat) t e n,
        NewStarClosure lex fuel s pos = some (t, some e, n) → t = none ∧ n = 0)
    ∧ (∀ lex : Lexeme, ErrInvariant (NewOptionClosure lex).lexer)
    ∧ (∀ (name : String) (lhs rhs : Lexeme),
        ErrInvariant (NewAlternateLexer name lhs rhs).lexer)
    ∧ (∀ lex : Lexeme, ErrInvariant (NewDiscardLexer lex).lexer)
    ∧ (∀ (lex : Lexeme) (s : Source) (pos : Nat) t e n,
        lex.lexer s pos = (t, some e, n) → ErrInvariant (Lexeme.lexer lex) →
        (NewOptionClosure lex).lexer s pos = (none, none, 0)
        ∧ (NewDiscardLexer lex).lexer s pos = (none, none, 0)) := by
  refine ⟨errInvariant_literal, errInvariant_regexp, errInvariant_concat,
    fun lex fuel s pos t e n h => errInvariant_plus lex fuel s pos t e n h,
    fun lex fuel s pos t e n h => errInvariant_star lex fuel s pos t e n h,
    ?_, errInvariant_alternate, ?_, ?_⟩
  · intro lex s pos t e n h
    have h2 : ((NewOptionClosure lex).lexer s pos).2.1 = some e :=
      congrArg (fun r => Prod.fst (Prod.snd r)) h
    rw [option_no_error lex s pos] at h2
    exact absurd h2 (by simp)
  · intro lex s pos t e n h
    have h2 : ((NewDiscardLexer lex).lexer s pos).2.1 = some e :=
      congrArg (fun r => Prod.fst (Prod.snd r)) h
    rw [discard_no_error lex s pos] at h2
    exact absurd h2 (by simp)
  · intro lex s pos t e n h hinv
    obtain ⟨ht, hn⟩ := hinv s pos t e n h
    constructor
    · rw [NewOptionClosure, Lexeme.lexer]
      dsimp only
      rw [h, ht, hn]
    · rw [NewDiscardLexer, Lexeme.lexer]
      dsimp only
      rw [h, hn]

/-- Witness for C10: the literal `y` fails on the empty input, and both
Optional and Discard over it report zero consumption, through the
dependence clause of the theorem (the invariant hypothesis discharged by
the literal clause of the same development). -/
theorem c10_witness :
    (NewOptionClosure (NewLiteralLexer "y" "y")).lexer ⟨[]⟩ 0 = (none, none, 0)
    ∧ (NewDiscardLexer (NewLiteralLexer "y" "y")).lexer ⟨[]⟩ 0 = (none, none, 0) :=
  c10_error_invariant.2.2.2.2.2.2.2.2 (NewLiteralLexer "y" "y") ⟨[]⟩ 0 none
    (.expectedLiteral "y" []) 0 rfl (errInvariant_literal "y" "y")

end Chicken
